import Mathlib

/-!
Verification development for the haddock3 pipeline-engine core.

Shallow embedding of:
* `BaseHaddockModule.previous_path`, `BaseHaddockModule._load_previous_io`,
  `BaseHaddockModule.__init__` and `BaseHaddockModule.finish_with_error`
  (src/haddock/modules/__init__.py);
* `get_index_list` and the post-scheduler output check of `HaddockModule._run`
  (src/src/haddock/modules/analysis/alascan/__init__.py);
* `to_torque_time`, `extract_slurm_status` and `JOB_STATUS_DIC`
  (haddock.libs.libhpc, not shipped in src/; modelled from the spec and
  pinned by src/tests/test_libhpc.py);
* the configuration loader `config_reader.loads`
  (haddock.gear.config_reader, not shipped in src/; modelled from the spec
  algorithm of section 4.1 and pinned by src/tests/test_config_reader.py).

Filesystem paths are modelled as lists of components (`PathM`); the
filesystem itself is passed explicitly as a lookup function, so every
definition is a pure function of its inputs.
-/

/-! ## Paths and fixed names (haddock.defaults) -/

/-- A filesystem path, as its list of components (absolute, already resolved:
`Path.resolve`/`Path.absolute` from the source are the identity here). -/
abbrev PathM : Type := List String

/-- `parent` of a path, as in `self.path.resolve().parent`. -/
def PathM.parent (p : PathM) : PathM := List.dropLast p

/-- Modelled from the spec: fixed step-directory name stem `MODULE_PATH_NAME`
from `haddock.defaults` (the module is not shipped in src/; the spec calls it
a fixed prefix for numbered step directories). The concrete text is
irrelevant to the claims. -/
def MODULE_PATH_NAME : String := "step_"

/-- Modelled from the spec: fixed setup/topology directory name
`TOPOLOGY_PATH` from `haddock.defaults` (not shipped in src/). -/
def TOPOLOGY_PATH : String := "topology"

/-- Modelled from the spec: fixed per-step manifest file name
`MODULE_IO_FILE` from `haddock.defaults` (not shipped in src/). -/
def MODULE_IO_FILE : String := "io.json"

/-! ## Output manifests (haddock.ontology.ModuleIO) -/

/-- Modelled from the spec: one artifact reference of an output manifest —
a file reference plus lightweight metadata (originating step, content
identity token). `haddock.ontology` is not shipped in src/. -/
structure Artifact where
  relPath : PathM
  originStep : Int
  token : String

/-- Modelled from the spec: an output manifest (`ModuleIO`) is the list of
artifact references a step exposes to its successor. -/
def ModuleIO : Type := List Artifact

/-- A freshly constructed `ModuleIO()`: the empty manifest. -/
def ModuleIO.empty : ModuleIO := []

/-! ## BaseHaddockModule.previous_path and _load_previous_io -/

/-- Embedding of `BaseHaddockModule.previous_path`
(src/haddock/modules/__init__.py lines 55-61): ordinal `> 1` resolves to the
parent directory joined with `MODULE_PATH_NAME` followed by the decimal
ordinal minus one; ordinal `= 1` resolves to the parent directory joined
with `TOPOLOGY_PATH`; any other ordinal returns the path unchanged. -/
def previous_path (order : Int) (path : PathM) : PathM :=
  if order > 1 then PathM.parent path ++ [ MODULE_PATH_NAME ++ toString (order - 1)]
  else if order = 1 then PathM.parent path ++ [TOPOLOGY_PATH]
  else path

/-- Embedding of `BaseHaddockModule._load_previous_io`
(src/haddock/modules/__init__.py lines 45-53). The filesystem is the lookup
`mfs`, giving the parsed manifest stored at a path, or `none` when no file
is there. Ordinal 0 returns a fresh empty manifest without consulting `mfs`;
otherwise the manifest file under `previous_path` is loaded when it exists
(`io.load`), and a fresh empty manifest is kept when it does not. The
source raises nothing on this code path. -/
def loadPreviousManifest (order : Int) (path : PathM) (mfs : PathM → Option ModuleIO) :
    ModuleIO :=
  if order = 0 then ModuleIO.empty
  else
    match mfs (previous_path order path ++ [ MODULE_IO_FILE]) with
    | some m => m
    | none => ModuleIO.empty

/-! ## BaseHaddockModule.__init__ -/

/-- The ways `BaseHaddockModule.__init__` can terminate abnormally:
`recipeError` models the `RecipeError` raised on a `FileNotFoundError` while
opening the recipe or the defaults; `attributeError` models the Python
`AttributeError` hit when `cns_script`/`cns_defaults` is falsy so that the
corresponding attribute was never set before being read. -/
inductive InitError where
  | recipeError (msg : String)
  | attributeError
deriving DecidableEq

/-- The state a successfully constructed `BaseHaddockModule` carries.
No job is part of it: jobs are only built later, inside `run`. -/
structure ModuleState where
  order : Int
  path : PathM
  recipe_str : String
  defaults : String
  previous_io : ModuleIO

/-- Embedding of `BaseHaddockModule.__init__`
(src/haddock/modules/__init__.py lines 15-34), with the raw filesystem as
the lookup `fs` (path to file content) and the parsed-manifest view `mfs`.
Order of effects follows the source: the previous manifest is loaded first,
then the recipe is opened (`FileNotFoundError` becomes `RecipeError`), then
the defaults are loaded (`FileNotFoundError` becomes `RecipeError`).
TOML decoding of the defaults is kept as the raw text: no claim depends on
it. A `none` script or defaults argument models the falsy default `""`,
whose attribute is never set. -/
def initModule (order : Int) (path : PathM)
    (cns_script cns_defaults : Option PathM)
    (fs : PathM → Option String) (mfs : PathM → Option ModuleIO) :
    Except InitError ModuleState :=
  let previous_io := loadPreviousManifest order path mfs
  match cns_script with
  | none => Except.error InitError.attributeError
  | some rp =>
    match fs rp with
    | none => Except.error (InitError.recipeError "Error while opening recipe")
    | some recipe_str =>
      match cns_defaults with
      | none => Except.error InitError.attributeError
      | some dp =>
        match fs dp with
        | none => Except.error (InitError.recipeError "Error while opening defaults")
        | some defaults =>
          Except.ok ⟨order, path, recipe_str, defaults, previous_io⟩

/-! ## get_index_list (alascan) -/

/-- Embedding of `get_index_list`
(src/src/haddock/modules/analysis/alascan/__init__.py lines 29-41):
starting from `[0]`, for each core in `range(ncores)` append the last
boundary plus `spc + 1` when the core index is below the remainder, else
plus `spc`. -/
def get_index_list (nmodels ncores : Nat) : List Nat :=
  let spc := nmodels / ncores
  let rem := nmodels % ncores
  (List.range ncores).foldl
    (fun index_list core =>
      index_list ++ [index_list.getLastD 0 + (if core < rem then spc + 1 else spc)])
    [0]

example : get_index_list 10 3 = [0, 4, 7, 10] := by decide
example : get_index_list 2 4 = [0, 1, 2, 2, 2] := by decide

/-! ## to_torque_time (haddock.libs.libhpc) -/

/-- Two-digit zero padding of a decimal number, as Python `f"{n:02d}"`:
numbers of three or more digits are kept whole (no truncation). -/
def pad2 (n : Nat) : String :=
  if n < 10 then "0" ++ toString n else toString n

/-- Modelled from the spec: `to_torque_time` from `haddock.libs.libhpc`
(not shipped in src/) converts a duration in minutes into the queue wall-time
token `HH:MM:SS` — two-digit-padded hours `m / 60` (carried past 99 without
truncation), two-digit minutes `m % 60`, and `00` seconds. Pinned by
src/tests/test_libhpc.py `test_to_torque_time`. -/
def to_torque_time (minutes : Nat) : String :=
  pad2 (minutes / 60) ++ ":" ++ pad2 (minutes % 60) ++ ":00"

example : to_torque_time 70 = "01:10:00" := by decide

/-! ## SLURM status parsing (haddock.libs.libhpc) -/

/-- The suffix of `hay` right after the first occurrence of `needle`, or
`none` when `needle` does not occur. -/
def findAfter (hay needle : List Char) : Option (List Char) :=
  match hay with
  | [] => if needle = [] then some [] else none
  | c :: rest =>
    if needle.isPrefixOf (c :: rest) then some (List.drop needle.length (c :: rest))
    else findAfter rest needle

/-- Whether `needle` occurs as a contiguous substring of `hay`
(Python `needle in hay`). -/
def containsSub (hay needle : List Char) : Bool :=
  (findAfter hay needle).isSome

/-- The leading run of word characters (the `\w*` of the source regex):
ASCII letters, digits and underscore. -/
def takeWord (cs : List Char) : List Char :=
  List.takeWhile (fun c => c.isAlphanum || c = Char.ofNat 95) cs

/-- Modelled from the spec: `extract_slurm_status` from `haddock.libs.libhpc`
(not shipped in src/). It parses the free-form `scontrol` output: the
purged-job error text `Invalid job id specified` maps to the status `ERROR`;
otherwise the word following `JobState=` is the status; with no such field
the status falls into the catch-all `UNKNOWN` of the closed status set.
Pinned by src/tests/test_libhpc.py. -/
def extract_slurm_status (out : String) : String :=
  if containsSub out.toList "Invalid job id specified".toList then "ERROR"
  else
    match findAfter out.toList "JobState=".toList with
    | some rest => String.mk (takeWord rest)
    | none => "UNKNOWN"

/-- Modelled from the spec: `JOB_STATUS_DIC` from `haddock.libs.libhpc`
(not shipped in src/) classifies raw queue statuses into the closed set
`running`, `pending`, `error`, `completed`/`unknown` of spec section 4.3.
The entries for `RUNNING` and `ERROR` are pinned by src/tests/test_libhpc.py. -/
def JOB_STATUS_DIC (status : String) : Option String :=
  (([("RUNNING", "running"), ("PENDING", "pending"),
     ("COMPLETED", "completed"), ("ERROR", "error"),
     ("UNKNOWN", "unknown")] : List (String × String)).find?
    (fun p => p.1 = status)).map Prod.snd

/-- Modelled from the spec: in the closed status set of spec section 4.3,
polling continues only on `running` and `pending`; every other status is
terminal for the poll loop. -/
def pollContinues (classified : String) : Bool :=
  classified = "running" || classified = "pending"

/-- The `scontrol show job` fixture of src/tests/test_libhpc.py
(`slurm_scontrol_terminated_jobid`), verbatim. -/
def slurmScontrolRunningFixture : String :=
  "JobId=42909924 JobName=proabc2.job
   UserId=enmr(1095) GroupId=users(100) MCS_label=N/A
   Priority=1 Nice=0 Account=(null) QOS=normal
   JobState=RUNNING Reason=None Dependency=(null)
   Requeue=1 Restarts=0 BatchFlag=1 Reboot=0 ExitCode=0:0
   DerivedExitCode=0:0
   RunTime=00:00:01 TimeLimit=04:00:00 TimeMin=N/A
   SubmitTime=2023-10-17T10:03:01 EligibleTime=2023-10-17T10:03:01
   AccrueTime=2023-10-17T10:03:01
   StartTime=2023-10-17T10:03:02 EndTime=2023-10-17T14:03:02 Deadline=N/A
   PreemptTime=None SuspendTime=None SecsPreSuspend=0
   LastSchedEval=2023-10-17T10:03:02
   Partition=short AllocNode:Sid=bianca:124111
   ReqNodeList=(null) ExcNodeList=(null)
   NodeList=node011
   BatchHost=node011
   NumNodes=1 NumCPUs=1 NumTasks=1 CPUs/Task=1 ReqB:S:C:T=0:0:*:*
   TRES=cpu=1,node=1,billing=1
   Socks/Node=* NtasksPerN:B:S:C=0:0:*:* CoreSpec=*
     Nodes=node011 CPU_IDs=4 Mem=0 GRES_IDX=
   MinCPUsNode=1 MinMemoryNode=0 MinTmpDiskNode=0
   Features=(null) DelayBoot=00:00:00
   OverSubscribe=OK Contiguous=0 Licenses=(null) Network=(null)
   Command=/trinity/home/enmr/csb_webserver/data/runs/proabc2/nAO_3OnarD4a/proabc2.job
   WorkDir=/trinity/home/enmr/csb_webserver/data/runs/proabc2
   StdErr=/trinity/home/enmr/csb_webserver/data/runs/proabc2/nAO_3OnarD4a/proabc2.err
   StdIn=/dev/null
   StdOut=/trinity/home/enmr/csb_webserver/data/runs/proabc2/nAO_3OnarD4a/proabc2.out
   Power=
"

/-- The purged-job fixture of src/tests/test_libhpc.py
(`slurm_scontrol_wrongjobid`), verbatim. -/
def slurmScontrolWrongJobIdFixture : String :=
  "slurm_load_jobs error: Invalid job id specified"

/-! ## alascan post-scheduler output check -/

/-- One alascan job as the post-scheduler check sees it: its output file
name and whether that file exists once the `Scheduler` has returned. -/
structure AJob where
  outputName : String
  outputExists : Bool
deriving DecidableEq

/-- Embedding of `BaseHaddockModule.finish_with_error`
(src/haddock/modules/__init__.py lines 39-43): an empty message is replaced
by `Module has failed`, then `SystemExit` is raised with the message logged. -/
def finishWithErrorMessage (message : String) : String :=
  if message = "" then "Module has failed" else message

/-- Outcome of the alascan module body after the `Scheduler` returns:
either the run was aborted via `finish_with_error` (`aborted`, carrying the
logged message and the list of missing output names — no manifest is
written on this branch), or the check passed and the module goes on to
export its output models (`proceeded`, carrying the collected file list). -/
inductive RunOutcome where
  | aborted (message : String) (missing : List String)
  | proceeded (alascanFiles : List String)
deriving DecidableEq

/-- The accumulation loop of `HaddockModule._run`
(src/src/haddock/modules/analysis/alascan/__init__.py lines 175-183):
fold over the jobs, collecting existing outputs into `alascan_file_l` and
missing output names into `not_found`, in job order. -/
def collectAlascan (jobs : List AJob) : List String × List String :=
  jobs.foldl
    (fun acc job =>
      if job.outputExists then (acc.1 ++ [job.outputName], acc.2)
      else (acc.1, acc.2 ++ [job.outputName]))
    ([], [])

/-- Embedding of the post-scheduler check of `HaddockModule._run`
(src/src/haddock/modules/analysis/alascan/__init__.py lines 174-188): when
`not_found` is non-empty the module calls `finish_with_error`, naming the
missing outputs, and the run is aborted before any manifest is written;
otherwise execution proceeds with the collected file list. -/
def alascanPostCheck (jobs : List AJob) : RunOutcome :=
  let acc := collectAlascan jobs
  if acc.2 ≠ [] then
    RunOutcome.aborted
      (finishWithErrorMessage "Several alascan files were not generated") acc.2
  else RunOutcome.proceeded acc.1

/-! ## Configuration loader (haddock.gear.config_reader)

Modelled from the spec, section 4.1: the loader scans the text line by line;
a `[name]` line opens a new numbered instance of the top-level section
`name`; a `[name.sub...]` line opens a nested section attached to `name`'s
currently open instance; `key = value` lines populate the root mapping when
no section is open, else the innermost open section. Lexing of the three
line shapes and of value literals is factored out: the loader here works on
the pre-classified line type `CLine`, which is where all the behaviour the
claims are about lives. The result keying is pinned by
src/tests/test_config_reader.py: a top-level name declared exactly once
keeps its bare name (`module`, `header` in the test expectations), while a
repeated name is keyed `name.1`, `name.2`, … in first-seen order. -/

/-- A parsed configuration scalar/sequence value. -/
inductive CValue where
  | vint (n : Int)
  | vstr (s : String)
  | vbool (b : Bool)
  | vlist (elems : List Int)
deriving DecidableEq

/-- A node of the resulting Config Tree: a leaf value or a nested section,
an ordered mapping from key to node. -/
inductive Node where
  | leaf (v : CValue)
  | sect (entries : List (String × Node))

/-- One classified configuration line. -/
inductive CLine where
  | header (name : String)
  | subheader (parent : String) (rest : List String)
  | kv (key : String) (v : CValue)

/-- One top-level entry of the loader's working state: a root key-value
pair, or the `idx`-th declared instance of the top-level section `name`. -/
inductive TopEntry where
  | kv (key : String) (v : CValue)
  | sect (name : String) (idx : Nat) (entries : List (String × Node))

/-- The loader's working state: accumulated top-level entries in first-seen
order, the per-top-level-name repetition counters, and the innermost open
section (top-level name, instance index, nested path), if any. -/
structure LoaderState where
  root : List TopEntry
  counters : List (String × Nat)
  current : Option (String × Nat × List String)

/-- The repetition counter recorded for `name` (0 when never declared). -/
def lookupCounter (cs : List (String × Nat)) (name : String) : Nat :=
  match cs with
  | [] => 0
  | (n, k) :: rest => if n = name then k else lookupCounter rest name

/-- Record counter value `k` for `name` (update in place, or append). -/
def setCounter (cs : List (String × Nat)) (name : String) (k : Nat) :
    List (String × Nat) :=
  match cs with
  | [] => [(name, k)]
  | (n, k') :: rest =>
    if n = name then (n, k) :: rest else (n, k') :: setCounter rest name k

/-- Set key `k` to node `nd` in an ordered section mapping: update in place
when the key is present, else append. -/
def setKeyNode (entries : List (String × Node)) (k : String) (nd : Node) :
    List (String × Node) :=
  match entries with
  | [] => [(k, nd)]
  | (k', n') :: rest =>
    if k' = k then (k, nd) :: rest else (k', n') :: setKeyNode rest k nd

/-- The entries of the sub-section stored at key `d`, or `[]` when `d` is
absent or holds a leaf. -/
def getSub (entries : List (String × Node)) (d : String) : List (String × Node) :=
  match entries with
  | [] => []
  | (k', Node.sect sub) :: rest => if k' = d then sub else getSub rest d
  | (k', Node.leaf _) :: rest => if k' = d then [] else getSub rest d

/-- Set the leaf `k = v` under the nested path `path` of a section mapping,
creating intermediate sub-sections as needed. -/
def setPath (entries : List (String × Node)) (path : List String) (k : String)
    (v : CValue) : List (String × Node) :=
  match path with
  | [] => setKeyNode entries k (Node.leaf v)
  | d :: rest => setKeyNode entries d (Node.sect (setPath (getSub entries d) rest k v))

/-- Make the nested path `path` exist in a section mapping (declaring a
sub-section creates its table even before any key line). -/
def ensurePath (entries : List (String × Node)) (path : List String) :
    List (String × Node) :=
  match path with
  | [] => entries
  | d :: rest => setKeyNode entries d (Node.sect (ensurePath (getSub entries d) rest))

/-- Apply `f` to the entries of instance (`name`, `idx`) among the top-level
entries (append a fresh instance when absent). -/
def updateRootSect (root : List TopEntry) (name : String) (idx : Nat)
    (f : List (String × Node) → List (String × Node)) : List TopEntry :=
  match root with
  | [] => [TopEntry.sect name idx (f [])]
  | TopEntry.sect n i e :: rest =>
    if n = name ∧ i = idx then TopEntry.sect n i (f e) :: rest
    else TopEntry.sect n i e :: updateRootSect rest name idx f
  | TopEntry.kv k v :: rest => TopEntry.kv k v :: updateRootSect rest name idx f

/-- Set a root-level `key = value` line (update in place, or append). -/
def setRootKV (root : List TopEntry) (k : String) (v : CValue) : List TopEntry :=
  match root with
  | [] => [TopEntry.kv k v]
  | TopEntry.kv k' v' :: rest =>
    if k' = k then TopEntry.kv k v :: rest
    else TopEntry.kv k' v' :: setRootKV rest k v
  | TopEntry.sect n i e :: rest => TopEntry.sect n i e :: setRootKV rest k v

/-- One step of the loader: process one classified line.
A `[name]` header bumps `name`'s repetition counter, appends a fresh empty
instance, and opens it; a `[name.sub...]` header opens the nested path under
`name`'s currently open (last-declared) instance, creating its table; a
`key = value` line goes to the root when no section is open, else to the
innermost open section. -/
def processLine (st : LoaderState) : CLine → LoaderState
  | CLine.header name =>
    let c := lookupCounter st.counters name + 1
    { root := st.root ++ [TopEntry.sect name c []],
      counters := setCounter st.counters name c,
      current := some (name, c, []) }
  | CLine.subheader parent rest =>
    let c := lookupCounter st.counters parent
    { root := updateRootSect st.root parent c (fun sub => ensurePath sub rest),
      counters := st.counters,
      current := some (parent, c, rest) }
  | CLine.kv k v =>
    match st.current with
    | none => { st with root := setRootKV st.root k v }
    | some (name, c, path) =>
      { st with root := updateRootSect st.root name c (fun sub => setPath sub path k v) }

/-- Final keying of one top-level entry: a section instance of a name
declared exactly once keeps the bare name; instances of a repeated name are
keyed `name.idx`. -/
def finalizeEntry (counters : List (String × Nat)) : TopEntry → String × Node
  | TopEntry.kv k v => (k, Node.leaf v)
  | TopEntry.sect name idx entries =>
    (if lookupCounter counters name ≤ 1 then name
     else name ++ "." ++ toString idx, Node.sect entries)

/-- Modelled from the spec: `config_reader.loads` on pre-classified lines —
fold the line processor over the input from the empty state, then apply the
final keying. Pinned by src/tests/test_config_reader.py. -/
def loads (lines : List CLine) : List (String × Node) :=
  let st := lines.foldl processLine ⟨[], [], none⟩
  st.root.map (finalizeEntry st.counters)

/-- Key-value lines from an association list. -/
def kvLines (l : List (String × CValue)) : List CLine :=
  l.map (fun p => CLine.kv p.1 p.2)

/-- The section entries an association list of scalars denotes. -/
def leafEntries (l : List (String × CValue)) : List (String × Node) :=
  l.map (fun p => (p.1, Node.leaf p.2))

/-- Whether an instance (`name`, `idx`) is among the top-level entries. -/
def hasSect (root : List TopEntry) (name : String) (idx : Nat) : Bool :=
  match root with
  | [] => false
  | TopEntry.sect n i _ :: rest =>
    if n = name ∧ i = idx then true else hasSect rest name idx
  | TopEntry.kv _ _ :: rest => hasSect rest name idx

/-! ## Concrete filesystems used as witnesses -/

/-- A raw filesystem holding exactly a recipe file and a defaults file. -/
def fsRecipeDefaults : PathM → Option String := fun p =>
  if p = ["recipe.cns"] then some "recipe text"
  else if p = ["defaults.toml"] then some "defaults text"
  else none

/-- A manifest view with no manifest anywhere. -/
def mfsNone : PathM → Option ModuleIO := fun _ => none

/-! # Claims -/

/-- Claim C1: `previous_path` is fully determined by the ordinal (and the
fixed working-directory convention): ordinal 1 resolves to the parent
directory joined with `TOPOLOGY_PATH`; ordinal `k > 1` resolves to the
parent directory joined with `MODULE_PATH_NAME` followed by `k - 1`; and
two steps with the same parent directory and ordinal `k ≥ 1` resolve to the
same predecessor directory — no other input (jobs run, in-memory or
wall-clock state) exists in the function. -/
theorem C1_previous_path_determined (k : Int) (path : PathM) :
    (k = 1 → previous_path k path = PathM.parent path ++ [TOPOLOGY_PATH]) ∧
    (1 < k →
      previous_path k path =
        PathM.parent path ++ [ MODULE_PATH_NAME ++ toString (k - 1)]) ∧
    (∀ q : PathM, 1 ≤ k → PathM.parent path = PathM.parent q →
      previous_path k path = previous_path k q) := by
  refine ⟨fun h1 => ?_, fun hk => ?_, fun q hk hpq => ?_⟩
  · subst h1; simp [previous_path]
  · simp [previous_path, hk, Int.not_lt.mpr (le_of_lt hk)]
  · rcases lt_or_eq_of_le hk with hgt | heq
    · simp [previous_path, hgt, hpq]
    · simp [previous_path, ← heq, hpq]

/-- Witness for C1 at ordinal 1 and ordinal 3. -/
theorem C1_witness :
    previous_path 1 ["run", "1_rigidbody"] = ["run", "topology"] ∧
    previous_path 3 ["run", "3_flexref"] = ["run", "step_2"] :=
  ⟨(C1_previous_path_determined 1 ["run", "1_rigidbody"]).1 rfl,
   (C1_previous_path_determined 3 ["run", "3_flexref"]).2.1 (by decide)⟩

/-- Claim C10: for every ordinal at most 0 (the setup phase and below),
`previous_path` returns the working directory unchanged, and for ordinal 0
the loaded predecessor manifest is the empty manifest for every filesystem
(the manifest view is never consulted). -/
theorem C10_order_zero_identity (k : Int) (path : PathM)
    (mfs : PathM → Option ModuleIO) :
    (k ≤ 0 → previous_path k path = path) ∧
    loadPreviousManifest 0 path mfs = ModuleIO.empty := by
  constructor
  · intro hk
    have h1 : ¬ k > 1 := by omega
    have h2 : ¬ k = 1 := by omega
    simp [previous_path, h1, h2]
  · simp [loadPreviousManifest]

/-- Witness for C10 at ordinal -2 and ordinal 0. -/
theorem C10_witness :
    previous_path (-2) ["run", "begin"] = ["run", "begin"] ∧
    loadPreviousManifest 0 ["run", "begin"] mfsNone = ModuleIO.empty :=
  ⟨(C10_order_zero_identity (-2) ["run", "begin"] mfsNone).1 (by decide),
   (C10_order_zero_identity 0 ["run", "begin"] mfsNone).2⟩

/-- Claim C2, counterexample: at ordinal 1 with no predecessor manifest on
disk (and recipe and defaults present), constructing the module succeeds —
`_load_previous_io` silently keeps an empty manifest instead of raising —
refuting that a missing manifest is fatal for ordinal ≥ 1. -/
theorem C2_counterexample :
    initModule 1 ["run", "1_rigidbody"] (some ["recipe.cns"])
        (some ["defaults.toml"]) fsRecipeDefaults mfsNone =
      Except.ok ⟨1, ["run", "1_rigidbody"], "recipe text", "defaults text",
        ModuleIO.empty⟩ ∧
    loadPreviousManifest 1 ["run", "1_rigidbody"] mfsNone = ModuleIO.empty :=
  ⟨rfl, rfl⟩

/-- Claim C2 (amended): a missing predecessor manifest is treated as an
empty manifest for every ordinal, not only ordinal 0; construction never
fails because of it — with recipe and defaults present, `__init__` returns
a module whose previous manifest is empty. -/
theorem C2_missing_manifest_empty (order : Int) (path : PathM)
    (sp dp : PathM) (fs : PathM → Option String) (mfs : PathM → Option ModuleIO)
    (r d : String) (hr : fs sp = some r) (hd : fs dp = some d)
    (hm : mfs (previous_path order path ++ [ MODULE_IO_FILE]) = none) :
    loadPreviousManifest order path mfs = ModuleIO.empty ∧
    initModule order path (some sp) (some dp) fs mfs =
      Except.ok ⟨order, path, r, d, ModuleIO.empty⟩ := by
  have hio : loadPreviousManifest order path mfs = ModuleIO.empty := by
    unfold loadPreviousManifest
    by_cases h0 : order = 0
    · simp [h0]
    · simp [h0, hm]
  refine ⟨hio, ?_⟩
  unfold initModule
  simp [hr, hd, hio]

/-- Witness for C2 (amended) at ordinal 2 with no manifest on disk. -/
theorem C2_witness :
    fsRecipeDefaults ["recipe.cns"] = some "recipe text" ∧
    fsRecipeDefaults ["defaults.toml"] = some "defaults text" ∧
    mfsNone (previous_path 2 ["run", "2_emref"] ++ [ MODULE_IO_FILE]) = none ∧
    loadPreviousManifest 2 ["run", "2_emref"] mfsNone = ModuleIO.empty ∧
    initModule 2 ["run", "2_emref"] (some ["recipe.cns"]) (some ["defaults.toml"])
        fsRecipeDefaults mfsNone =
      Except.ok ⟨2, ["run", "2_emref"], "recipe text", "defaults text",
        ModuleIO.empty⟩ := by
  refine ⟨rfl, rfl, rfl, ?_⟩
  exact (C2_missing_manifest_empty 2 ["run", "2_emref"] ["recipe.cns"]
    ["defaults.toml"] fsRecipeDefaults mfsNone "recipe text" "defaults text"
    rfl rfl rfl).imp id id

/-- Claim C8: when the recipe resource or the defaults source cannot be
opened (absent from the filesystem), construction fails with a
`RecipeError`; and construction returns a module state only when both could
be opened — so no job is ever built after such a failure (jobs are only
built by `run` on a constructed state). -/
theorem C8_recipe_error_fail_fast (order : Int) (path : PathM) (sp dp : PathM)
    (fs : PathM → Option String) (mfs : PathM → Option ModuleIO) :
    (fs sp = none →
      initModule order path (some sp) (some dp) fs mfs =
        Except.error (InitError.recipeError "Error while opening recipe")) ∧
    (∀ r, fs sp = some r → fs dp = none →
      initModule order path (some sp) (some dp) fs mfs =
        Except.error (InitError.recipeError "Error while opening defaults")) ∧
    (∀ st, initModule order path (some sp) (some dp) fs mfs = Except.ok st →
      (∃ r, fs sp = some r) ∧ (∃ d, fs dp = some d)) := by
  refine ⟨fun hs => ?_, fun r hr hd => ?_, fun st hok => ?_⟩
  · unfold initModule; simp [hs]
  · unfold initModule; simp [hr, hd]
  · unfold initModule at hok
    rcases hsp : fs sp with _ | r
    · simp [hsp] at hok
    · rcases hdp : fs dp with _ | d
      · simp [hsp, hdp] at hok
      · exact ⟨⟨r, rfl⟩, ⟨d, rfl⟩⟩

/-- Witness for C8: a filesystem with no recipe, and one with a recipe but
no defaults. -/
theorem C8_witness :
    initModule 2 ["run", "2_emref"] (some ["recipe.cns"]) (some ["defaults.toml"])
        (fun _ => none) mfsNone =
      Except.error (InitError.recipeError "Error while opening recipe") ∧
    initModule 2 ["run", "2_emref"] (some ["recipe.cns"]) (some ["missing.toml"])
        fsRecipeDefaults mfsNone =
      Except.error (InitError.recipeError "Error while opening defaults") :=
  ⟨(C8_recipe_error_fail_fast 2 ["run", "2_emref"] ["recipe.cns"]
      ["defaults.toml"] (fun _ => none) mfsNone).1 rfl,
   (C8_recipe_error_fail_fast 2 ["run", "2_emref"] ["recipe.cns"]
      ["missing.toml"] fsRecipeDefaults mfsNone).2.1 "recipe text" rfl rfl⟩

/-- Claim C4: the minutes-to-wall-time helper maps the checked durations to
the `HH:MM:SS` tokens pinned by src/tests/test_libhpc.py, carrying hours
past 99 without truncation. -/
theorem C4_to_torque_time_vectors :
    to_torque_time 10 = "00:10:00" ∧ to_torque_time 60 = "01:00:00" ∧
    to_torque_time 70 = "01:10:00" ∧ to_torque_time 1510 = "25:10:00" ∧
    to_torque_time 6070 = "101:10:00" := by
  refine ⟨rfl, rfl, rfl, rfl, rfl⟩

set_option maxRecDepth 100000 in
/-- Claim C5: the SLURM parser maps the well-formed `scontrol` fixture with
`JobState=RUNNING` to `RUNNING`, classified `running`; and the purged-job
`Invalid job id specified` error text to `ERROR`, classified `error`, on
which polling stops — never a state that keeps the poll loop alive. -/
theorem C5_slurm_status_parsing :
    extract_slurm_status slurmScontrolRunningFixture = "RUNNING" ∧
    JOB_STATUS_DIC "RUNNING" = some "running" ∧
    extract_slurm_status slurmScontrolWrongJobIdFixture = "ERROR" ∧
    JOB_STATUS_DIC "ERROR" = some "error" ∧
    pollContinues "error" = false ∧ pollContinues "running" = true := by
  refine ⟨by decide, by decide, by decide, by decide, by decide, by decide⟩

/-- The alascan accumulation loop splits the jobs into the existing-output
names and the missing-output names, in job order, for any starting
accumulators. -/
lemma collectAlascan_foldl (jobs : List AJob) (a b : List String) :
    jobs.foldl
      (fun acc job =>
        if job.outputExists then (acc.1 ++ [job.outputName], acc.2)
        else (acc.1, acc.2 ++ [job.outputName]))
      (a, b) =
    (a ++ (jobs.filter (fun j => j.outputExists)).map AJob.outputName,
     b ++ (jobs.filter (fun j => !j.outputExists)).map AJob.outputName) := by
  induction jobs generalizing a b with
  | nil => simp
  | cons j rest ih =>
    by_cases hj : j.outputExists
    · simp only [List.foldl_cons, hj, if_true, List.filter_cons]
      rw [ih]
      simp [hj]
    · simp only [List.foldl_cons, hj, if_false, List.filter_cons]
      rw [ih]
      simp [hj]

/-- The accumulation loop of `_run`, from its actual empty accumulators. -/
lemma collectAlascan_eq (jobs : List AJob) :
    collectAlascan jobs =
      ((jobs.filter (fun j => j.outputExists)).map AJob.outputName,
       (jobs.filter (fun j => !j.outputExists)).map AJob.outputName) := by
  unfold collectAlascan
  simpa using collectAlascan_foldl jobs [] []

/-- Claim C9: after the Scheduler returns, if any alascan job's expected
output file is missing, the module aborts via `finish_with_error` and the
diagnostic carries exactly the missing output names (never a manifest, never
partial continuation); when every output exists the module proceeds with the
full file list. -/
theorem C9_missing_outputs_abort (jobs : List AJob) :
    (jobs.filter (fun j => !j.outputExists) ≠ [] →
      alascanPostCheck jobs =
        RunOutcome.aborted "Several alascan files were not generated"
          ((jobs.filter (fun j => !j.outputExists)).map AJob.outputName)) ∧
    (jobs.filter (fun j => !j.outputExists) = [] →
      alascanPostCheck jobs =
        RunOutcome.proceeded (jobs.map AJob.outputName)) := by
  constructor
  · intro hne
    unfold alascanPostCheck
    rw [collectAlascan_eq]
    have hmap : (jobs.filter (fun j => !j.outputExists)).map AJob.outputName ≠ [] := by
      simpa using hne
    rw [if_pos hmap]
    rfl
  · intro hall
    unfold alascanPostCheck
    rw [collectAlascan_eq]
    have hmap : (jobs.filter (fun j => !j.outputExists)).map AJob.outputName = [] := by
      rw [hall]; rfl
    rw [if_neg (by simp [hmap])]
    have hself : jobs.filter (fun j => j.outputExists) = jobs := by
      rw [List.filter_eq_self]
      intro j hj
      by_contra hnot
      have : j ∈ jobs.filter (fun j => !j.outputExists) :=
        List.mem_filter.mpr ⟨hj, by simp [hnot]⟩
      rw [hall] at this
      exact absurd this (List.not_mem_nil j)
    rw [hself]

/-- Witness for C9: one completed and one missing output abort the run
naming the missing file; two completed outputs proceed. -/
theorem C9_witness :
    alascanPostCheck [⟨"alascan_0.scan", true⟩, ⟨"alascan_1.scan", false⟩] =
      RunOutcome.aborted "Several alascan files were not generated"
        ["alascan_1.scan"] ∧
    alascanPostCheck [⟨"alascan_0.scan", true⟩, ⟨"alascan_1.scan", true⟩] =
      RunOutcome.proceeded ["alascan_0.scan", "alascan_1.scan"] :=
  ⟨(C9_missing_outputs_abort [⟨"alascan_0.scan", true⟩, ⟨"alascan_1.scan", false⟩]).1
      (by decide),
   (C9_missing_outputs_abort [⟨"alascan_0.scan", true⟩, ⟨"alascan_1.scan", true⟩]).2
      (by decide)⟩

/-- The last element of a list extended by one element. -/
lemma getLastD_append_single (xs : List Nat) (a d : Nat) :
    (xs ++ [a]).getLastD d = a := by
  induction xs with
  | nil => rfl
  | cons x xs ih =>
    rw [List.cons_append]
    rcases xs with _ | ⟨y, ys⟩
    · rfl
    · simpa using ih

/-- The boundary-building fold, for fixed per-core share and remainder:
after `m` steps the boundaries are `i * spc + min i rem` for `i = 0 … m`. -/
lemma foldl_boundaries (spc rem m : Nat) :
    (List.range m).foldl
      (fun il core => il ++ [il.getLastD 0 + (if core < rem then spc + 1 else spc)])
      [0] =
    (List.range (m + 1)).map (fun i => i * spc + min i rem) := by
  induction m with
  | zero =>
    rw [List.range_succ]
    simp
  | succ k ih =>
    rw [List.range_succ, List.foldl_append, ih]
    simp only [List.foldl_cons, List.foldl_nil]
    have hlast :
        ((List.range (k + 1)).map (fun i => i * spc + min i rem)).getLastD 0 =
          k * spc + min k rem := by
      rw [List.range_succ, List.map_append]
      exact getLastD_append_single _ _ _
    have hstep :
        k * spc + min k rem + (if k < rem then spc + 1 else spc) =
          (k + 1) * spc + min (k + 1) rem := by
      have hmul : (k + 1) * spc = k * spc + spc := Nat.succ_mul k spc
      by_cases hk : k < rem
      · have h1 : min k rem = k := Nat.min_eq_left (Nat.le_of_lt hk)
        have h2 : min (k + 1) rem = k + 1 := Nat.min_eq_left hk
        rw [if_pos hk]
        omega
      · have h1 : min k rem = rem := Nat.min_eq_right (Nat.le_of_not_lt hk)
        have h2 : min (k + 1) rem = rem := Nat.min_eq_right (by omega)
        rw [if_neg hk]
        omega
    rw [hlast, hstep, List.range_succ (n := k + 1), List.map_append]
    simp

/-- The boundaries built by `get_index_list` are exactly
`i * (n / c) + min i (n % c)` for `i = 0 … c`. -/
lemma get_index_list_eq_map (n c : Nat) :
    get_index_list n c =
      (List.range (c + 1)).map (fun i => i * (n / c) + min i (n % c)) :=
  foldl_boundaries (n / c) (n % c) c

/-- The `i`-th boundary of `get_index_list n c`, for `i ≤ c`. -/
lemma get_index_list_getD (n c i : Nat) (h : i ≤ c) :
    (get_index_list n c).getD i 0 = i * (n / c) + min i (n % c) := by
  rw [get_index_list_eq_map, List.getD_eq_getElem?_getD, List.getElem?_map,
    List.getElem?_range (by omega : i < c + 1)]
  rfl

/-- Boundaries are monotone in the index. -/
lemma get_index_list_mono (n c : Nat) {i j : Nat} (hij : i ≤ j) (hj : j ≤ c) :
    (get_index_list n c).getD i 0 ≤ (get_index_list n c).getD j 0 := by
  rw [get_index_list_getD n c i (le_trans hij hj), get_index_list_getD n c j hj]
  have hmul : i * (n / c) ≤ j * (n / c) := Nat.mul_le_mul_right _ hij
  have hmin : min i (n % c) ≤ min j (n % c) := min_le_min hij (le_refl _)
  omega

/-- Any point below boundary `m` lies inside one of the first `m` ranges. -/
lemma exists_range_of_lt (f : Nat → Nat) (h0 : f 0 = 0) :
    ∀ m x, x < f m → ∃ i, i < m ∧ f i ≤ x ∧ x < f (i + 1) := by
  intro m
  induction m with
  | zero => intro x hx; rw [h0] at hx; omega
  | succ k ih =>
    intro x hx
    by_cases h : x < f k
    · obtain ⟨i, hi, hle, hlt⟩ := ih x h
      exact ⟨i, by omega, hle, hlt⟩
    · exact ⟨k, by omega, by omega, hx⟩

/-- Claim C3: for `c ≥ 1` workers over `n` units, `get_index_list n c`
yields `c + 1` boundaries running monotonically from 0 to `n` (so the `c`
index ranges are contiguous, non-overlapping and gap-free), every range
length is `n / c` or `n / c + 1`, a range gets the extra unit exactly when
its worker index is below `n % c`, and every unit index below `n` lies in
exactly one range. -/
theorem C3_partition (n c : Nat) (hc : 1 ≤ c) :
    (get_index_list n c).length = c + 1 ∧
    (get_index_list n c).getD 0 0 = 0 ∧
    (get_index_list n c).getD c 0 = n ∧
    (∀ i, i < c →
      (get_index_list n c).getD i 0 ≤ (get_index_list n c).getD (i + 1) 0) ∧
    (∀ i, i < c →
      (get_index_list n c).getD (i + 1) 0 - (get_index_list n c).getD i 0 = n / c ∨
      (get_index_list n c).getD (i + 1) 0 - (get_index_list n c).getD i 0 = n / c + 1) ∧
    (∀ i, i < c →
      ((get_index_list n c).getD (i + 1) 0 - (get_index_list n c).getD i 0 = n / c + 1 ↔
        i < n % c)) ∧
    (∀ x, x < n → ∃! i, i < c ∧ (get_index_list n c).getD i 0 ≤ x ∧
      x < (get_index_list n c).getD (i + 1) 0) := by
  have hdiff : ∀ i, i < c →
      (get_index_list n c).getD (i + 1) 0 - (get_index_list n c).getD i 0 =
        (if i < n % c then n / c + 1 else n / c) := by
    intro i hi
    rw [get_index_list_getD n c i (by omega), get_index_list_getD n c (i + 1) (by omega)]
    have hgen : ∀ A B : Nat,
        (i + 1) * A + min (i + 1) B - (i * A + min i B) =
          (if i < B then A + 1 else A) := by
      intro A B
      have hmul : (i + 1) * A = i * A + A := Nat.succ_mul _ _
      by_cases hk : i < B
      · have h1 : min i B = i := Nat.min_eq_left (by omega)
        have h2 : min (i + 1) B = i + 1 := Nat.min_eq_left hk
        rw [if_pos hk, hmul, h1, h2]
        omega
      · have h1 : min i B = B := Nat.min_eq_right (by omega)
        have h2 : min (i + 1) B = B := Nat.min_eq_right (by omega)
        rw [if_neg hk, hmul, h1, h2]
        omega
    exact hgen (n / c) (n % c)
  have hlen : (get_index_list n c).length = c + 1 := by
    rw [get_index_list_eq_map]
    simp
  have h0 : (get_index_list n c).getD 0 0 = 0 := by
    rw [get_index_list_getD n c 0 (Nat.zero_le c)]
    simp
  have hend : (get_index_list n c).getD c 0 = n := by
    rw [get_index_list_getD n c c (le_refl c)]
    have hmod : n % c < c := Nat.mod_lt n (by omega)
    rw [Nat.min_eq_right (Nat.le_of_lt hmod)]
    exact Nat.div_add_mod n c
  refine ⟨hlen, h0, hend, fun i hi => get_index_list_mono n c (by omega) (by omega),
    fun i hi => ?_, fun i hi => ?_, fun x hx => ?_⟩
  · rw [hdiff i hi]
    by_cases hk : i < n % c
    · right; rw [if_pos hk]
    · left; rw [if_neg hk]
  · rw [hdiff i hi]
    by_cases hk : i < n % c
    · simp [hk]
    · rw [if_neg hk]
      constructor
      · intro h; omega
      · intro h; exact absurd h hk
  · obtain ⟨i, hi, hle, hlt⟩ :=
      exists_range_of_lt (fun i => (get_index_list n c).getD i 0) h0 c x
        (by show x < (get_index_list n c).getD c 0; rw [hend]; exact hx)
    refine ⟨i, ⟨hi, hle, hlt⟩, ?_⟩
    rintro j ⟨hj, hjle, hjlt⟩
    rcases lt_trichotomy j i with hlt' | heq | hgt
    · have : (get_index_list n c).getD (j + 1) 0 ≤ (get_index_list n c).getD i 0 :=
        get_index_list_mono n c (by omega) (by omega)
      omega
    · exact heq
    · have : (get_index_list n c).getD (i + 1) 0 ≤ (get_index_list n c).getD j 0 :=
        get_index_list_mono n c (by omega) (by omega)
      omega

/-- Setting an absent key appends it. -/
lemma setKeyNode_absent (entries : List (String × Node)) (k : String) (nd : Node)
    (h : k ∉ entries.map Prod.fst) :
    setKeyNode entries k nd = entries ++ [(k, nd)] := by
  induction entries with
  | nil => rfl
  | cons e rest ih =>
    obtain ⟨k', n'⟩ := e
    simp only [List.map_cons, List.mem_cons, not_or] at h
    rw [setKeyNode, if_neg (fun he => h.1 he.symm), ih h.2]
    rfl

/-- Reading a sub-section at an absent key gives the empty mapping. -/
lemma getSub_absent (entries : List (String × Node)) (d : String)
    (h : d ∉ entries.map Prod.fst) :
    getSub entries d = [] := by
  induction entries with
  | nil => rfl
  | cons e rest ih =>
    obtain ⟨k', n'⟩ := e
    simp only [List.map_cons, List.mem_cons, not_or] at h
    cases n' with
    | leaf v => rw [getSub, if_neg (fun he => h.1 he.symm)]; exact ih h.2
    | sect s => rw [getSub, if_neg (fun he => h.1 he.symm)]; exact ih h.2

/-- Reading the sub-section stored at the final entry. -/
lemma getSub_append_last (E0 : List (String × Node)) (d : String)
    (S : List (String × Node)) (h : d ∉ E0.map Prod.fst) :
    getSub (E0 ++ [(d, Node.sect S)]) d = S := by
  induction E0 with
  | nil => simp [getSub]
  | cons e rest ih =>
    obtain ⟨k', n'⟩ := e
    simp only [List.map_cons, List.mem_cons, not_or] at h
    cases n' with
    | leaf v =>
      rw [List.cons_append, getSub, if_neg (fun he => h.1 he.symm)]
      exact ih h.2
    | sect s =>
      rw [List.cons_append, getSub, if_neg (fun he => h.1 he.symm)]
      exact ih h.2

/-- Overwriting the node stored at the final entry. -/
lemma setKeyNode_append_last (E0 : List (String × Node)) (d : String)
    (nd' nd : Node) (h : d ∉ E0.map Prod.fst) :
    setKeyNode (E0 ++ [(d, nd')]) d nd = E0 ++ [(d, nd)] := by
  induction E0 with
  | nil => simp [setKeyNode]
  | cons e rest ih =>
    obtain ⟨k', n'⟩ := e
    simp only [List.map_cons, List.mem_cons, not_or] at h
    rw [List.cons_append, setKeyNode, if_neg (fun he => h.1 he.symm), ih h.2]
    rfl

/-- Updating the instance stored at the final top-level entry. -/
lemma updateRootSect_append (R : List TopEntry) (name : String) (idx : Nat)
    (E : List (String × Node)) (f : List (String × Node) → List (String × Node))
    (h : hasSect R name idx = false) :
    updateRootSect (R ++ [TopEntry.sect name idx E]) name idx f =
      R ++ [TopEntry.sect name idx (f E)] := by
  induction R with
  | nil => simp [updateRootSect]
  | cons e rest ih =>
    cases e with
    | kv k v =>
      rw [hasSect] at h
      rw [List.cons_append, updateRootSect, ih h]
      rfl
    | sect n i e' =>
      rw [hasSect] at h
      by_cases hc : n = name ∧ i = idx
      · rw [if_pos hc] at h
        exact absurd h (by simp)
      · rw [if_neg hc] at h
        rw [List.cons_append, updateRootSect, if_neg hc, ih h]
        rfl

/-- Processing key-value lines while instance (`h`, `c`) is open and stored
last among the top-level entries folds `setPath` over its entries and
changes nothing else. -/
lemma foldl_kv_open (l : List (String × CValue)) (R : List TopEntry)
    (cnt : List (String × Nat)) (h : String) (c : Nat) (p : List String)
    (E : List (String × Node)) (hR : hasSect R h c = false) :
    List.foldl processLine
        ⟨R ++ [TopEntry.sect h c E], cnt, some (h, c, p)⟩ (kvLines l) =
      ⟨R ++ [TopEntry.sect h c (l.foldl (fun e q => setPath e p q.1 q.2) E)],
        cnt, some (h, c, p)⟩ := by
  induction l generalizing E with
  | nil => rfl
  | cons q rest ih =>
    simp only [kvLines, List.map_cons, List.foldl_cons]
    have hone :
        processLine ⟨R ++ [TopEntry.sect h c E], cnt, some (h, c, p)⟩
            (CLine.kv q.1 q.2) =
          ⟨R ++ [TopEntry.sect h c (setPath E p q.1 q.2)], cnt, some (h, c, p)⟩ := by
      show LoaderState.mk
          (updateRootSect (R ++ [TopEntry.sect h c E]) h c
            (fun sub => setPath sub p q.1 q.2)) cnt (some (h, c, p)) = _
      rw [updateRootSect_append R h c E _ hR]
    rw [hone]
    exact ih (setPath E p q.1 q.2)

/-- Folding root-level `setPath` (empty nested path) over fresh, duplicate-free
key-value pairs appends their leaf entries in order. -/
lemma foldl_setPath_nil (l : List (String × CValue)) (E : List (String × Node))
    (hfresh : ∀ k ∈ l.map Prod.fst, k ∉ E.map Prod.fst)
    (hnd : (l.map Prod.fst).Nodup) :
    l.foldl (fun e q => setPath e [] q.1 q.2) E = E ++ leafEntries l := by
  induction l generalizing E with
  | nil => simp [leafEntries]
  | cons q rest ih =>
    simp only [List.foldl_cons]
    simp only [List.map_cons, List.nodup_cons] at hnd
    have hq : q.1 ∉ E.map Prod.fst := hfresh q.1 (by simp)
    have hstep : setPath E [] q.1 q.2 = E ++ [(q.1, Node.leaf q.2)] := by
      show setKeyNode E q.1 (Node.leaf q.2) = _
      exact setKeyNode_absent E q.1 _ hq
    rw [hstep, ih (E ++ [(q.1, Node.leaf q.2)]) ?fresh hnd.2]
    · simp [leafEntries]
    case fresh =>
      intro k hk
      simp only [List.map_append, List.map_cons, List.map_nil, List.mem_append,
        List.mem_singleton, not_or]
      refine ⟨hfresh k (by simp [hk]), ?_⟩
      intro hkq
      exact hnd.1 (hkq ▸ hk)

/-- Folding `setPath` along the one-segment nested path `d`, when `d`'s
sub-section is stored last, updates only that sub-section. -/
lemma foldl_setPath_sub (d : String) (l : List (String × CValue))
    (E0 S : List (String × Node)) (hd : d ∉ E0.map Prod.fst) :
    l.foldl (fun e q => setPath e [d] q.1 q.2) (E0 ++ [(d, Node.sect S)]) =
      E0 ++ [(d, Node.sect (l.foldl (fun e q => setPath e [] q.1 q.2) S))] := by
  induction l generalizing S with
  | nil => rfl
  | cons q rest ih =>
    simp only [List.foldl_cons]
    have hstep : setPath (E0 ++ [(d, Node.sect S)]) [d] q.1 q.2 =
        E0 ++ [(d, Node.sect (setPath S [] q.1 q.2))] := by
      show setKeyNode (E0 ++ [(d, Node.sect S)]) d
          (Node.sect (setPath (getSub (E0 ++ [(d, Node.sect S)]) d) [] q.1 q.2)) = _
      rw [getSub_append_last E0 d S hd, setKeyNode_append_last E0 d _ _ hd]
    rw [hstep]
    exact ih (setPath S [] q.1 q.2)

/-- The loader step on a top-level header, spelled out. -/
lemma processLine_header (st : LoaderState) (name : String) :
    processLine st (CLine.header name) =
      ⟨st.root ++ [TopEntry.sect name (lookupCounter st.counters name + 1) []],
       setCounter st.counters name (lookupCounter st.counters name + 1),
       some (name, lookupCounter st.counters name + 1, [])⟩ := rfl

/-- The loader step on a sub-section header, spelled out. -/
lemma processLine_subheader (st : LoaderState) (parent : String)
    (rest : List String) :
    processLine st (CLine.subheader parent rest) =
      ⟨updateRootSect st.root parent (lookupCounter st.counters parent)
        (fun sub => ensurePath sub rest),
       st.counters, some (parent, lookupCounter st.counters parent, rest)⟩ := rfl

/-- The state after `[h]` followed by its key-value lines: one open instance
of `h`, numbered 1, holding exactly those keys. -/
lemma fold_first_section (h : String) (l1 : List (String × CValue))
    (hnd : (l1.map Prod.fst).Nodup) :
    List.foldl processLine ⟨[], [], none⟩ (CLine.header h :: kvLines l1) =
      ⟨[TopEntry.sect h 1 (leafEntries l1)], [(h, 1)], some (h, 1, [])⟩ := by
  rw [List.foldl_cons, processLine_header]
  simp only [lookupCounter, setCounter, List.nil_append, Nat.zero_add]
  have hkv := foldl_kv_open l1 [] [(h, 1)] h 1 [] [] rfl
  simp only [List.nil_append] at hkv
  rw [hkv, foldl_setPath_nil l1 [] (by simp) hnd, List.nil_append]

/-- The state after `[h]`, its keys, `[h]` again, and the second block of
keys: two instances of `h`, numbered 1 and 2 in declaration order, each
holding exactly its own keys; instance 2 open. -/
lemma fold_two_sections (h : String) (l1 l2 : List (String × CValue))
    (hnd1 : (l1.map Prod.fst).Nodup) (hnd2 : (l2.map Prod.fst).Nodup) :
    List.foldl processLine ⟨[], [], none⟩
        (CLine.header h :: kvLines l1 ++ CLine.header h :: kvLines l2) =
      ⟨[TopEntry.sect h 1 (leafEntries l1), TopEntry.sect h 2 (leafEntries l2)],
       [(h, 2)], some (h, 2, [])⟩ := by
  have hsplit : CLine.header h :: kvLines l1 ++ CLine.header h :: kvLines l2 =
      (CLine.header h :: kvLines l1) ++ (CLine.header h :: kvLines l2) := by
    simp
  rw [hsplit, List.foldl_append, fold_first_section h l1 hnd1,
    List.foldl_cons, processLine_header]
  have hc : lookupCounter [(h, 1)] h = 1 := by simp [lookupCounter]
  rw [show ((⟨[TopEntry.sect h 1 (leafEntries l1)], [(h, 1)],
      some (h, 1, [])⟩ : LoaderState)).counters = [(h, 1)] from rfl,
    show ((⟨[TopEntry.sect h 1 (leafEntries l1)], [(h, 1)],
      some (h, 1, [])⟩ : LoaderState)).root = [TopEntry.sect h 1 (leafEntries l1)]
      from rfl, hc,
    show (1 : Nat) + 1 = 2 from rfl]
  have hs : setCounter [(h, 1)] h 2 = [(h, 2)] := by simp [setCounter]
  rw [hs]
  have hkv := foldl_kv_open l2 [TopEntry.sect h 1 (leafEntries l1)] [(h, 2)]
    h 2 [] [] (by simp [hasSect])
  simp only [List.cons_append, List.nil_append] at hkv
  simp only [List.cons_append, List.nil_append]
  rw [hkv, foldl_setPath_nil l2 [] (by simp) hnd2, List.nil_append]

/-- Claim C7, counterexample: a top-level section declared exactly once is
keyed by its bare name — parsing `[h]` then `a = 1` yields the key `h`, not
`h.1` — matching `_config_example_dict_2`/`_dict_3` of
src/tests/test_config_reader.py and refuting that the first declaration is
keyed with the `.1` suffix. -/
theorem C7_counterexample :
    (loads [CLine.header "h", CLine.kv "a" (CValue.vint 1)]).map Prod.fst =
      ["h"] ∧
    "h.1" ∉ (loads [CLine.header "h", CLine.kv "a" (CValue.vint 1)]).map
      Prod.fst := by
  constructor
  · rfl
  · decide

/-- Claim C7 (amended): the first declaration of a top-level name starts
instance 1 and each bare re-declaration starts the next instance, in
first-seen order; but a name declared exactly once is keyed by its bare
name, and the numeric suffixes `.1`, `.2`, … appear only once the name
repeats. -/
theorem C7_instance_keying (h : String) (l1 l2 : List (String × CValue))
    (hnd1 : (l1.map Prod.fst).Nodup) (hnd2 : (l2.map Prod.fst).Nodup) :
    loads (CLine.header h :: kvLines l1) = [(h, Node.sect (leafEntries l1))] ∧
    (loads (CLine.header h :: kvLines l1 ++ CLine.header h :: kvLines l2)).map
        Prod.fst = [h ++ ".1", h ++ ".2"] := by
  have e1 : h ++ "." ++ toString (1 : Nat) = h ++ ".1" := by
    rw [String.append_assoc]
    rfl
  have e2 : h ++ "." ++ toString (2 : Nat) = h ++ ".2" := by
    rw [String.append_assoc]
    rfl
  constructor
  · show (List.foldl processLine ⟨[], [], none⟩
        (CLine.header h :: kvLines l1)).root.map
      (finalizeEntry (List.foldl processLine ⟨[], [], none⟩
        (CLine.header h :: kvLines l1)).counters) = _
    rw [fold_first_section h l1 hnd1]
    simp [finalizeEntry, lookupCounter]
  · show ((List.foldl processLine ⟨[], [], none⟩
        (CLine.header h :: kvLines l1 ++ CLine.header h :: kvLines l2)).root.map
      (finalizeEntry (List.foldl processLine ⟨[], [], none⟩
        (CLine.header h :: kvLines l1 ++
          CLine.header h :: kvLines l2)).counters)).map Prod.fst = _
    rw [fold_two_sections h l1 l2 hnd1 hnd2]
    simp [finalizeEntry, lookupCounter, e1, e2]

/-- Witness for C7 (amended), at `h` with one key per block. -/
theorem C7_witness :
    loads (CLine.header "h" :: kvLines [("a", CValue.vint 1)]) =
      [("h", Node.sect (leafEntries [("a", CValue.vint 1)]))] ∧
    (loads (CLine.header "h" :: kvLines [("a", CValue.vint 1)] ++
        CLine.header "h" :: kvLines [("b", CValue.vint 2)])).map Prod.fst =
      ["h" ++ ".1", "h" ++ ".2"] :=
  ⟨(C7_instance_keying "h" [("a", CValue.vint 1)] [("b", CValue.vint 2)]
      (by decide) (by decide)).1,
   (C7_instance_keying "h" [("a", CValue.vint 1)] [("b", CValue.vint 2)]
      (by decide) (by decide)).2⟩

/-- Claim C6: declaring `[h]` with one block of keys, then `[h]` again with
another block, yields two separate numbered instances `h.1` and `h.2`
holding exactly their own keys — never merged — and a sub-section `[h.d]`
declared after the second bare re-declaration attaches to that currently
open instance `h.2`, not to instance 1. -/
theorem C6_repeated_sections (h d : String) (l1 l2 l3 : List (String × CValue))
    (hnd1 : (l1.map Prod.fst).Nodup) (hnd2 : (l2.map Prod.fst).Nodup)
    (hnd3 : (l3.map Prod.fst).Nodup) (hd : d ∉ l2.map Prod.fst) :
    loads (CLine.header h :: kvLines l1 ++ CLine.header h :: kvLines l2) =
      [(h ++ ".1", Node.sect (leafEntries l1)),
       (h ++ ".2", Node.sect (leafEntries l2))] ∧
    loads (CLine.header h :: kvLines l1 ++ CLine.header h :: kvLines l2 ++
        CLine.subheader h [d] :: kvLines l3) =
      [(h ++ ".1", Node.sect (leafEntries l1)),
       (h ++ ".2", Node.sect
         (leafEntries l2 ++ [(d, Node.sect (leafEntries l3))]))] := by
  have e1 : h ++ "." ++ toString (1 : Nat) = h ++ ".1" := by
    rw [String.append_assoc]
    rfl
  have e2 : h ++ "." ++ toString (2 : Nat) = h ++ ".2" := by
    rw [String.append_assoc]
    rfl
  have hdk : d ∉ (leafEntries l2).map Prod.fst := by
    simpa [leafEntries] using hd
  constructor
  · show (List.foldl processLine ⟨[], [], none⟩
        (CLine.header h :: kvLines l1 ++ CLine.header h :: kvLines l2)).root.map
      (finalizeEntry (List.foldl processLine ⟨[], [], none⟩
        (CLine.header h :: kvLines l1 ++
          CLine.header h :: kvLines l2)).counters) = _
    rw [fold_two_sections h l1 l2 hnd1 hnd2]
    simp [finalizeEntry, lookupCounter, e1, e2]
  · have hassoc : CLine.header h :: kvLines l1 ++ CLine.header h :: kvLines l2 ++
        CLine.subheader h [d] :: kvLines l3 =
        (CLine.header h :: kvLines l1 ++ CLine.header h :: kvLines l2) ++
          (CLine.subheader h [d] :: kvLines l3) := by
      simp
    show (List.foldl processLine ⟨[], [], none⟩
        (CLine.header h :: kvLines l1 ++ CLine.header h :: kvLines l2 ++
          CLine.subheader h [d] :: kvLines l3)).root.map
      (finalizeEntry (List.foldl processLine ⟨[], [], none⟩
        (CLine.header h :: kvLines l1 ++ CLine.header h :: kvLines l2 ++
          CLine.subheader h [d] :: kvLines l3)).counters) = _
    rw [hassoc, List.foldl_append, fold_two_sections h l1 l2 hnd1 hnd2,
      List.foldl_cons, processLine_subheader]
    have hc2 : lookupCounter [(h, 2)] h = 2 := by simp [lookupCounter]
    rw [show ((⟨[TopEntry.sect h 1 (leafEntries l1),
        TopEntry.sect h 2 (leafEntries l2)], [(h, 2)],
        some (h, 2, [])⟩ : LoaderState)).counters = [(h, 2)] from rfl,
      show ((⟨[TopEntry.sect h 1 (leafEntries l1),
        TopEntry.sect h 2 (leafEntries l2)], [(h, 2)],
        some (h, 2, [])⟩ : LoaderState)).root =
        [TopEntry.sect h 1 (leafEntries l1), TopEntry.sect h 2 (leafEntries l2)]
        from rfl, hc2]
    have hupd := updateRootSect_append [TopEntry.sect h 1 (leafEntries l1)] h 2
      (leafEntries l2) (fun sub => ensurePath sub [d]) (by simp [hasSect])
    simp only [List.cons_append, List.nil_append] at hupd
    rw [hupd]
    have hens : ensurePath (leafEntries l2) [d] =
        leafEntries l2 ++ [(d, Node.sect [])] := by
      show setKeyNode (leafEntries l2) d
          (Node.sect (getSub (leafEntries l2) d)) = _
      rw [getSub_absent _ _ hdk, setKeyNode_absent _ _ _ hdk]
    rw [hens]
    have hkv3 := foldl_kv_open l3 [TopEntry.sect h 1 (leafEntries l1)] [(h, 2)]
      h 2 [d] (leafEntries l2 ++ [(d, Node.sect [])]) (by simp [hasSect])
    simp only [List.cons_append, List.nil_append] at hkv3
    rw [hkv3, foldl_setPath_sub d l3 (leafEntries l2) [] hdk,
      foldl_setPath_nil l3 [] (by simp) hnd3, List.nil_append]
    simp [finalizeEntry, lookupCounter, e1, e2]

/-- Witness for C6, at `h` with keys `a = 1`, then `b = 2`, then
sub-section `w` with `x = 3`. -/
theorem C6_witness :
    loads (CLine.header "h" :: kvLines [("a", CValue.vint 1)] ++
        CLine.header "h" :: kvLines [("b", CValue.vint 2)]) =
      [("h" ++ ".1", Node.sect (leafEntries [("a", CValue.vint 1)])),
       ("h" ++ ".2", Node.sect (leafEntries [("b", CValue.vint 2)]))] ∧
    loads (CLine.header "h" :: kvLines [("a", CValue.vint 1)] ++
        CLine.header "h" :: kvLines [("b", CValue.vint 2)] ++
        CLine.subheader "h" ["w"] :: kvLines [("x", CValue.vint 3)]) =
      [("h" ++ ".1", Node.sect (leafEntries [("a", CValue.vint 1)])),
       ("h" ++ ".2", Node.sect (leafEntries [("b", CValue.vint 2)] ++
         [("w", Node.sect (leafEntries [("x", CValue.vint 3)]))]))] :=
  ⟨(C6_repeated_sections "h" "w" [("a", CValue.vint 1)] [("b", CValue.vint 2)]
      [("x", CValue.vint 3)] (by decide) (by decide) (by decide) (by decide)).1,
   (C6_repeated_sections "h" "w" [("a", CValue.vint 1)] [("b", CValue.vint 2)]
      [("x", CValue.vint 3)] (by decide) (by decide) (by decide) (by decide)).2⟩

/-- Witness for C3: 10 units over 3 workers. -/
theorem C3_witness :
    1 ≤ 3 ∧ (get_index_list 10 3).length = 3 + 1 ∧
    (get_index_list 10 3).getD 0 0 = 0 ∧ (get_index_list 10 3).getD 3 0 = 10 := by
  have h := C3_partition 10 3 (by decide)
  exact ⟨by decide, h.1, h.2.1, h.2.2.1⟩
